import Mathlib

/-!
Verification development for the CPC data-extraction collection engine.

The Python sources are shallowly embedded:
* `JVal` models Python/JSON values as produced by `resp.json()` (Python `None`
  is `JVal.null`; numeric values are modelled as integers, which covers the
  identifiers and payloads the properties below are about).
* Python dictionaries are modelled as insertion-ordered association lists
  (`PyDict`) with first-match lookup and replace-in-place-or-append update,
  matching CPython's dict semantics for unique keys.  Output records are keyed
  by `HKey`, the hashable subset of values (unhashable keys raise, which the
  embedding surfaces as `none`).
* Code that can raise an exception is embedded with `Option` (a `none` result
  is a raised exception propagating out of the function).
* Python's cross-type numeric equality (`True == 1`) is not modelled; dict
  keys of distinct constructors are distinct.
-/

set_option autoImplicit false

universe u v

/-- A Python/JSON value. `null` doubles as Python `None`. -/
inductive JVal where
  | null : JVal
  | b : Bool → JVal
  | i : Int → JVal
  | s : String → JVal
  | arr : List JVal → JVal
  | obj : List (String × JVal) → JVal

/-- A hashable Python value, usable as a dict key.  Lists and dicts are not
hashable; attempting to use one as a key raises `TypeError`. -/
inductive HKey where
  | null : HKey
  | b : Bool → HKey
  | i : Int → HKey
  | s : String → HKey
deriving DecidableEq

/-- A Python dict: insertion-ordered key/value pairs with unique keys. -/
abbrev PyDict (K : Type u) (V : Type v) := List (K × V)

variable {K : Type u} {V : Type v}

/-- `d[key]` lookup returning the first matching entry, `none` for a missing key. -/
def dget [DecidableEq K] : PyDict K V → K → Option V
  | [], _ => none
  | (k, v) :: rest, key => if key = k then some v else dget rest key

/-- `d.get(key, dflt)`. -/
def dgetD [DecidableEq K] (d : PyDict K V) (key : K) (dflt : V) : V :=
  (dget d key).getD dflt

/-- `key in d`. -/
def dmem [DecidableEq K] (d : PyDict K V) (key : K) : Bool :=
  (dget d key).isSome

/-- `d[key] = v`: replace the value at an existing key in place, else append. -/
def dinsert [DecidableEq K] : PyDict K V → K → V → PyDict K V
  | [], key, v => [(key, v)]
  | (k, w) :: rest, key, v =>
    if key = k then (k, v) :: rest else (k, w) :: dinsert rest key v

/-- The keys of a dict in insertion order. -/
def dkeys (d : PyDict K V) : List K := d.map Prod.fst

@[simp] theorem dget_nil [DecidableEq K] (key : K) : dget ([] : PyDict K V) key = none := rfl

@[simp] theorem dget_cons [DecidableEq K] (k key : K) (v : V) (rest : PyDict K V) :
    dget ((k, v) :: rest) key = if key = k then some v else dget rest key := rfl

@[simp] theorem dkeys_nil : dkeys ([] : PyDict K V) = [] := rfl

@[simp] theorem dkeys_cons (p : K × V) (rest : PyDict K V) :
    dkeys (p :: rest) = p.1 :: dkeys rest := rfl

theorem dget_dinsert_self [DecidableEq K] (d : PyDict K V) (k : K) (v : V) :
    dget (dinsert d k v) k = some v := by
  induction d with
  | nil => simp [dinsert]
  | cons p rest ih =>
    obtain ⟨k', w⟩ := p
    by_cases h : k = k' <;> simp [dinsert, h, ih]

theorem dget_dinsert_ne [DecidableEq K] (d : PyDict K V) (k k' : K) (v : V) (h : k' ≠ k) :
    dget (dinsert d k v) k' = dget d k' := by
  induction d with
  | nil => simp [dinsert, h]
  | cons p rest ih =>
    obtain ⟨k0, w⟩ := p
    by_cases hk : k = k0
    · subst hk; simp [dinsert, h]
    · by_cases hk' : k' = k0 <;> simp [dinsert, hk, hk', ih]

theorem dinsert_of_dget_eq [DecidableEq K] (d : PyDict K V) (k : K) (v : V)
    (h : dget d k = some v) : dinsert d k v = d := by
  induction d with
  | nil => simp at h
  | cons p rest ih =>
    obtain ⟨k0, w⟩ := p
    by_cases hk : k = k0
    · subst hk
      simp at h
      simp [dinsert, h]
    · simp [hk] at h
      simp [dinsert, hk, ih h]

theorem mem_dkeys_dinsert [DecidableEq K] (d : PyDict K V) (k key : K) (v : V) :
    key ∈ dkeys (dinsert d k v) ↔ key = k ∨ key ∈ dkeys d := by
  induction d with
  | nil => simp [dinsert]
  | cons p rest ih =>
    obtain ⟨k0, w⟩ := p
    by_cases hk : k = k0 <;> (simp [dinsert, hk, ih]; try tauto)

theorem dget_isSome_iff_mem_dkeys [DecidableEq K] (d : PyDict K V) (k : K) :
    (dget d k).isSome = true ↔ k ∈ dkeys d := by
  induction d with
  | nil => simp
  | cons p rest ih =>
    obtain ⟨k0, w⟩ := p
    by_cases hk : k = k0 <;> simp [hk, ih]

theorem dget_of_mem_of_nodup [DecidableEq K] (d : PyDict K V) (k : K) (v : V)
    (hnd : (dkeys d).Nodup) (hmem : (k, v) ∈ d) : dget d k = some v := by
  induction d with
  | nil => simp at hmem
  | cons p rest ih =>
    obtain ⟨k0, w⟩ := p
    simp only [dkeys, List.map_cons, List.nodup_cons] at hnd
    rcases List.mem_cons.mp hmem with h | h
    · cases h
      simp
    · have hk : k ≠ k0 := by
        intro he
        subst he
        exact hnd.1 (List.mem_map.mpr ⟨(k, v), h, rfl⟩)
      simpa [hk] using ih hnd.2 h

/-! ### Python value semantics used by the collector -/

/-- `isinstance(v, dict)`. -/
def isObj : JVal → Bool
  | .obj _ => true
  | _ => false

/-- `v is None`. -/
def isNone : JVal → Bool
  | .null => true
  | _ => false

/-- Python truthiness of a value (`if v:`). -/
def pyTruthy : JVal → Bool
  | .null => false
  | .b x => x
  | .i n => n ≠ 0
  | .s t => t ≠ ""
  | .arr l => !l.isEmpty
  | .obj ps => !ps.isEmpty

/-- Iterating a value (`for x in v`): lists yield elements, dicts their keys,
strings their characters; other values raise `TypeError` (`none`). -/
def pyIter : JVal → Option (List JVal)
  | .arr l => some l
  | .obj ps => some (ps.map (fun p => JVal.s p.1))
  | .s t => some (t.data.map (fun c => JVal.s (String.mk [c])))
  | _ => none

/-- `a or b` on a value used as a Python expression (keep `a` if truthy). -/
def pyOr (a b : JVal) : JVal := if pyTruthy a then a else b

/-- A key or index step of a `rows_dict` key chain. -/
inductive Key where
  | ks : String → Key
  | ki : Int → Key
deriving DecidableEq

/-- Python list indexing with negative-index support. -/
def listIndex (l : List JVal) (idx : Int) : Option JVal :=
  let j := if idx < 0 then idx + l.length else idx
  if j < 0 then none else l.get? j.toNat

/-- `current[key]` subscripting; `none` models `KeyError`/`IndexError`/`TypeError`. -/
def subscript : JVal → Key → Option JVal
  | .obj ps, .ks k => dget ps k
  | .arr l, .ki idx => listIndex l idx
  | .s t, .ki idx => (listIndex (t.data.map (fun c => JVal.s (String.mk [c]))) idx)
  | _, _ => none

/-- `CpcDataCollector._safe_extract`: walk the key chain, returning Python
`None` (our `JVal.null`) as soon as a step raises. -/
def safe_extract : JVal → List Key → JVal
  | cur, [] => cur
  | cur, k :: rest =>
    match subscript cur k with
    | none => JVal.null
    | some v => safe_extract v rest

/-- Specification-side total path lookup, used to compare a missing path
(`none`) with a present-but-null value (`some JVal.null`). -/
def pathLookup : JVal → List Key → Option JVal
  | cur, [] => some cur
  | cur, k :: rest =>
    match subscript cur k with
    | none => none
    | some v => pathLookup v rest

/-- `CpcDataCollector._fetch_single_row`, with the environment made explicit:
`stop_pre`/`stop_post` are the two stop-signal samples, `reqErr` a request
failure raised by `_safe_request` (its message), `jsonData` the parsed body
(`none` models `json.JSONDecodeError`). -/
def fetch_single_row (stop_pre stop_post : Bool) (declarant_id : Int)
    (reqErr : Option String) (jsonData : Option JVal) (key_chain : List Key) :
    Int × JVal × Option String :=
  if stop_pre then (declarant_id, JVal.null, some "Stopped")
  else
    match reqErr with
    | some e => (declarant_id, JVal.null, some e)
    | none =>
      if stop_post then (declarant_id, JVal.null, some "Stopped")
      else
        match jsonData with
        | none => (declarant_id, JVal.null, some "Invalid JSON")
        | some data =>
          let sec := safe_extract data key_chain
          if isNone sec then (declarant_id, JVal.null, some "Data section not found")
          else (declarant_id, sec, none)

/-! ### `get_row_data`: the fan-out fetch loop (stop signal never set) -/

/-- Mutable collector/loop state touched by `get_row_data`:
`rows_by_id`/`failed_items` are the collector fields, `fetched` records which
detail requests were processed, `progressLog` the `(completed, total)`
progress-callback invocations. -/
structure RunState where
  rows_by_id : PyDict Int JVal
  failed_items : List (Int × Option String)
  fetched : List Int
  progressLog : List (Nat × Nat)
  completed : Nat

def initRunState : RunState := ⟨[], [], [], [], 0⟩

/-- One iteration of the completion loop body for a finished future `c`
(`c = (declarant_id, result, error_reason)`). -/
def processOne (total : Nat) (st : RunState) (c : Int × JVal × Option String) : RunState :=
  let st1 :=
    if isNone c.2.1 = false then
      { st with rows_by_id := dinsert st.rows_by_id c.1 c.2.1 }
    else if c.2.2 ≠ some "Stopped" then
      { st with failed_items := st.failed_items ++ [(c.1, c.2.2)] }
    else st
  { st1 with
      completed := st1.completed + 1
      fetched := st1.fetched ++ [c.1]
      progressLog := st1.progressLog ++ [(st1.completed + 1, total)] }

/-- `CpcDataCollector.get_row_data` on a run in which the stop signal is never
set: `key_chain` is `rows_dict.get(self.row_name)`, `outs` the sequence of
completed futures in the order the loop consumes them. -/
def get_row_data_run (key_chain : Option (List Key)) (declarant_ids : List Int)
    (outs : List (Int × JVal × Option String)) : RunState :=
  match key_chain with
  | none => initRunState
  | some kc =>
    if kc.isEmpty then initRunState
    else if declarant_ids.length = 0 then initRunState
    else outs.foldl (processOne declarant_ids.length) initRunState

/-! ### `get_values`: the shape normalizer -/

/-- Evaluate a Python comprehension `[f(x) for x in l]` whose body may raise. -/
def seqMapO {A : Type u} {B : Type v} (f : A → Option B) : List A → Option (List B)
  | [] => some []
  | a :: rest =>
    match f a with
    | none => none
    | some b =>
      match seqMapO f rest with
      | none => none
      | some bs => some (b :: bs)

/-- `[h["name"] for h in items]` over the value of `headerItems`. -/
def headerNames (v : JVal) : Option (List JVal) :=
  match pyIter v with
  | none => none
  | some items => seqMapO (fun h => subscript h (Key.ks "name")) items

/-- The `for cell in section["cells"]` scan of `get_values`: each tabular cell
value overwrites `headers`/`rows`; there is no break, so a later match wins. -/
def scanCells : List JVal → List JVal × JVal → Option (List JVal × JVal)
  | [], acc => some acc
  | c :: cs, acc =>
    match c with
    | .obj cps =>
      match dgetD cps "value" JVal.null with
      | .obj vps =>
        if dmem vps "rows" then
          match headerNames (dgetD vps "headerItems" (JVal.arr [])) with
          | none => none
          | some hs => scanCells cs (hs, dgetD vps "rows" JVal.null)
        else scanCells cs acc
      | _ => scanCells cs acc
    | _ => none

/-- The per-section body of `CpcDataCollector.get_values`, producing the
`(headers, rows)` pair stored into `headers_by_id`/`rows_by_id`. -/
def normalizeSection : JVal → Option (List JVal × JVal)
  | .obj ps =>
    if dmem ps "rows" then
      match headerNames (dgetD ps "headerItems" (JVal.arr [])) with
      | none => none
      | some hs => some (hs, dgetD ps "rows" JVal.null)
    else if dmem ps "cells" then
      match pyIter (dgetD ps "cells" JVal.null) with
      | none => none
      | some cells => scanCells cells ([], JVal.arr [])
    else some ([], JVal.arr [])
  | .arr l => some ([], JVal.arr l)
  | _ => some ([], JVal.arr [])

/-- Normalize each entry of `rows_by_id` in iteration order. -/
def normEntries : List (Int × JVal) → Option (List (Int × (List JVal × JVal)))
  | [] => some []
  | (k, sv) :: rest =>
    match normalizeSection sv with
    | none => none
    | some hr =>
      match normEntries rest with
      | none => none
      | some tl => some ((k, hr) :: tl)

/-- `CpcDataCollector.get_values`: for each id, store the normalized headers
into `headers_by_id` and overwrite `rows_by_id` in place. -/
def normState (rows : PyDict Int JVal) (hdrs : PyDict Int (List JVal)) :
    Option (PyDict Int JVal × PyDict Int (List JVal)) :=
  match normEntries rows with
  | none => none
  | some ns =>
    some (ns.foldl (fun d p => dinsert d p.1 p.2.2) rows,
          ns.foldl (fun d p => dinsert d p.1 p.2.1) hdrs)

/-! ### `merge_and_save` and `_extract_row_values` -/

/-- A flattened output record: a dict keyed by hashable Python values (string
metadata keys plus whatever header values get assigned). -/
abbrev RecDict := PyDict HKey JVal

/-- Using a value as a dict key: hashable values convert, lists/dicts raise. -/
def toHKey : JVal → Option HKey
  | .null => some HKey.null
  | .b x => some (HKey.b x)
  | .i n => some (HKey.i n)
  | .s t => some (HKey.s t)
  | .arr _ => none
  | .obj _ => none

/-- `record[h] = v` for a header value `h` (raises on an unhashable key). -/
def dinsertJ (r : RecDict) (k v : JVal) : Option RecDict :=
  match toHKey k with
  | none => none
  | some hk => some (dinsert r hk v)

/-- `person.copy()`: the metadata dict viewed as an output record. -/
def toRec (p : PyDict String JVal) : RecDict :=
  p.map (fun q => (HKey.s q.1, q.2))

/-- `headers = [f"col_{i + 1}" for i in range(len(row))]`. -/
def colHeaders (n : Nat) : List JVal :=
  (List.range n).map (fun idx => JVal.s ("col_" ++ toString (idx + 1)))

/-- `[c.get("value") for c in row["cells"]]`. -/
def cellValues : List JVal → Option (List JVal)
  | [] => some []
  | .obj cps :: rest =>
    match cellValues rest with
    | none => none
    | some vs => some (dgetD cps "value" JVal.null :: vs)
  | _ :: _ => none

/-- `[c.get("title") or f"col_{i + 1}" for i, c in enumerate(row["cells"])]`. -/
def cellTitles : List JVal → Nat → Option (List JVal)
  | [], _ => some []
  | .obj cps :: rest, idx =>
    match cellTitles rest (idx + 1) with
    | none => none
    | some hs => some (pyOr (dgetD cps "title" JVal.null) (JVal.s ("col_" ++ toString (idx + 1))) :: hs)
  | _ :: _, _ => none

/-- `CpcDataCollector._extract_row_values`. -/
def extract_row_values (row : JVal) : Option (List JVal × List JVal) :=
  match row with
  | .arr l => some (colHeaders l.length, l)
  | .obj ps =>
    if dmem ps "cells" then
      match pyIter (dgetD ps "cells" JVal.null) with
      | none => none
      | some cells =>
        match cellValues cells with
        | none => none
        | some values =>
          match cellTitles cells 0 with
          | none => none
          | some hs => some (hs, values)
    else some ([], [])
  | _ => some ([], [])

/-- The record-building loop of `merge_and_save`:
`for i, h in enumerate(eff_headers): record[h] = values[i] if i < len(values) else None`. -/
def buildRecordAux (vs : List JVal) : RecDict → Nat → List JVal → Option RecDict
  | r, _, [] => some r
  | r, idx, h :: t =>
    match dinsertJ r h (vs.getD idx JVal.null) with
    | none => none
    | some r' => buildRecordAux vs r' (idx + 1) t

/-- The zero-rows loop of `merge_and_save`: `for h in headers: record[h] = None`. -/
def buildNullRecord : RecDict → List JVal → Option RecDict
  | r, [] => some r
  | r, h :: t =>
    match dinsertJ r h JVal.null with
    | none => none
    | some r' => buildNullRecord r' t

/-- One joined record for one row: per-row extraction, then
`eff_headers = headers or row_headers` and the assignment loop. -/
def recordsForRow (person : RecDict) (sectionHeaders : List JVal) (row : JVal) :
    Option RecDict :=
  match extract_row_values row with
  | none => none
  | some (rowHeaders, values) =>
    buildRecordAux values person 0
      (if sectionHeaders.isEmpty then rowHeaders else sectionHeaders)

/-- `d_id in failed_id_set` where the set holds integer declaration ids. -/
def jidMem (idv : JVal) (ids : List Int) : Bool :=
  match idv with
  | .i n => decide (n ∈ ids)
  | _ => false

/-- `self.rows_by_id.get(d_id, [])`. -/
def jgetRows (rows : PyDict Int JVal) (idv : JVal) : JVal :=
  match idv with
  | .i n => dgetD rows n (JVal.arr [])
  | _ => JVal.arr []

/-- `self.headers_by_id.get(d_id, [])`. -/
def jgetHeaders (hdrs : PyDict Int (List JVal)) (idv : JVal) : List JVal :=
  match idv with
  | .i n => dgetD hdrs n []
  | _ => []

/-- The records contributed by one entry of `declaration_list` inside
`merge_and_save`: skipped entirely when its id is in the failure set, one
null-filled record when its rows are falsy, else one record per row. -/
def recordsForPerson (rows : PyDict Int JVal) (hdrs : PyDict Int (List JVal))
    (failedIds : List Int) (person : PyDict String JVal) : Option (List RecDict) :=
  match dget person "id" with
  | none => none
  | some d_id =>
    if jidMem d_id failedIds then some []
    else
      let rowsV := jgetRows rows d_id
      let hsV := jgetHeaders hdrs d_id
      if pyTruthy rowsV = false then
        match buildNullRecord (toRec person) hsV with
        | none => none
        | some r => some [r]
      else
        match pyIter rowsV with
        | none => none
        | some rowList => seqMapO (recordsForRow (toRec person) hsV) rowList

/-- Concatenation of the per-person record lists (`final_data.append` order). -/
def flattenL {A : Type u} : List (List A) → List A
  | [] => []
  | l :: ls => l ++ flattenL ls

/-- `CpcDataCollector.merge_and_save`, returning `(final_data, failed_items)`. -/
def merge_and_save (decls : List (PyDict String JVal)) (rows : PyDict Int JVal)
    (hdrs : PyDict Int (List JVal)) (failed : List (Int × Option String)) :
    Option (List RecDict × List (Int × Option String)) :=
  match seqMapO (recordsForPerson rows hdrs (failed.map Prod.fst)) decls with
  | none => none
  | some parts => some (flattenL parts, failed)

/-- `self.declarant_ids.extend([d["id"] for d in data])` under the (observed)
shape that declaration ids are JSON integers. -/
def declarantIds : List (PyDict String JVal) → Option (List Int)
  | [] => some []
  | p :: rest =>
    match dget p "id" with
    | some (JVal.i n) =>
      match declarantIds rest with
      | some ns => some (n :: ns)
      | none => none
    | _ => none

/-! ### `task_manager`: admission control and job state -/

/-- One entry of the `TASKS` registry (`stopSet` is the `stop_event` flag). -/
structure JobState where
  status : String
  progress : Nat
  total : Nat
  start_time : Nat
  stopSet : Bool
  message : String
deriving DecidableEq

/-- `task_manager.stop_task`: sets the stop event and forces the status to
`"stopping"` whenever the task id exists, returning whether it did. -/
def stop_task (tasks : PyDict String JobState) (task_id : String) :
    PyDict String JobState × Bool :=
  match dget tasks task_id with
  | some t => (dinsert tasks task_id { t with stopSet := true, status := "stopping" }, true)
  | none => (tasks, false)

/-- The `progress_callback` closure inside `task_manager._worker`. -/
def worker_progress_callback (tasks : PyDict String JobState) (task_id : String)
    (completed total : Nat) : PyDict String JobState :=
  match dget tasks task_id with
  | some t =>
    dinsert tasks task_id
      { t with
          progress := completed
          total := total
          status := "processing"
          message := "Processed " ++ toString completed ++ " of " ++ toString total ++ " items..." }
  | none => tasks

/-- `threading.BoundedSemaphore(value=2)`. -/
def taskCapacity : Nat := 2

def busyMessage : String :=
  "Server is busy (Max 2 tasks running). Please try again in a few minutes."

/-- The registry entry created by `start_collection_task`. -/
def initialJob (now : Nat) : JobState :=
  { status := "initializing", progress := 0, total := 0,
    start_time := now, stopSet := false, message := "Starting collection..." }

/-- `task_manager.start_collection_task`: `free` is the semaphore counter; a
non-blocking acquire fails exactly when it is zero, and on failure nothing is
registered.  Returns `(result, counter, registry)`. -/
def start_collection_task (free : Nat) (tasks : PyDict String JobState)
    (new_id : String) (now : Nat) :
    Except String String × Nat × PyDict String JobState :=
  if free = 0 then (Except.error busyMessage, free, tasks)
  else (Except.ok new_id, free - 1, dinsert tasks new_id (initialJob now))

/-! ### Helper lemmas -/

theorem isNone_iff (v : JVal) : isNone v = true ↔ v = JVal.null := by
  cases v <;> simp [isNone]

theorem seqMapO_length {A : Type u} {B : Type v} (f : A → Option B) :
    ∀ (l : List A) (ys : List B), seqMapO f l = some ys → ys.length = l.length := by
  intro l
  induction l with
  | nil => intro ys h; simp [seqMapO] at h; simp [← h]
  | cons a rest ih =>
    intro ys h
    simp only [seqMapO] at h
    cases hf : f a with
    | none => rw [hf] at h; exact absurd h (by simp)
    | some b =>
      rw [hf] at h
      cases hr : seqMapO f rest with
      | none => rw [hr] at h; exact absurd h (by simp)
      | some bs =>
        rw [hr] at h
        cases h
        simp [ih bs hr]

theorem seqMapO_mem_of_mem {A : Type u} {B : Type v} (f : A → Option B) :
    ∀ (l : List A) (ys : List B) (a : A), seqMapO f l = some ys → a ∈ l →
      ∃ b, f a = some b ∧ b ∈ ys := by
  intro l
  induction l with
  | nil => intro ys a _ ha; simp at ha
  | cons a0 rest ih =>
    intro ys a h ha
    simp only [seqMapO] at h
    cases hf : f a0 with
    | none => rw [hf] at h; exact absurd h (by simp)
    | some b =>
      rw [hf] at h
      cases hr : seqMapO f rest with
      | none => rw [hr] at h; exact absurd h (by simp)
      | some bs =>
        rw [hr] at h
        cases h
        rcases List.mem_cons.mp ha with h1 | h1
        · exact ⟨b, h1 ▸ hf, by simp⟩
        · obtain ⟨b', hb', hmem⟩ := ih bs a hr h1
          exact ⟨b', hb', by simp [hmem]⟩

theorem mem_flattenL {A : Type u} :
    ∀ (ls : List (List A)) (l : List A) (x : A), l ∈ ls → x ∈ l → x ∈ flattenL ls := by
  intro ls
  induction ls with
  | nil => intro l x h; simp at h
  | cons l0 rest ih =>
    intro l x hl hx
    rcases List.mem_cons.mp hl with h1 | h1
    · subst h1; simp [flattenL, hx]
    · simp [flattenL]
      exact Or.inr (ih l x h1 hx)

theorem pyTruthy_iter_ne_nil (v : JVal) (l : List JVal)
    (ht : pyTruthy v = true) (hi : pyIter v = some l) : l ≠ [] := by
  cases v with
  | s t =>
    simp [pyIter] at hi
    simp [pyTruthy] at ht
    cases t with
    | mk data =>
      intro hl
      rw [← hi] at hl
      simp at hl
      exact ht (by rw [hl])
  | arr l0 =>
    simp [pyIter] at hi
    simp [pyTruthy, List.isEmpty_iff] at ht
    rw [← hi]; exact ht
  | obj ps =>
    simp [pyIter] at hi
    simp [pyTruthy, List.isEmpty_iff] at ht
    rw [← hi]; simp [ht]
  | null => simp [pyTruthy] at ht
  | b x => simp [pyIter] at hi
  | i nn => simp [pyIter] at hi

/-! ### Claim C9: null payloads are indistinguishable from missing paths -/

theorem safe_extract_null_iff :
    ∀ (chain : List Key) (data : JVal),
      safe_extract data chain = JVal.null ↔
        (pathLookup data chain = none ∨ pathLookup data chain = some JVal.null) := by
  intro chain
  induction chain with
  | nil => intro data; simp [safe_extract, pathLookup]
  | cons k rest ih =>
    intro data
    simp only [safe_extract, pathLookup]
    cases subscript data k with
    | none => simp
    | some v => simpa using ih v

/-- C9: a detail payload whose value at the configured path is JSON null is
indistinguishable from one where the path is missing: in both cases
`_safe_extract` yields `None` and `_fetch_single_row` (stop signal unset,
request and JSON decode successful) classifies the id as a `FailedItem` with
reason "Data section not found"; the id is recorded as a success exactly when
the extracted section value is non-null. -/
theorem null_indistinguishable_from_missing (d_id : Int) (data : JVal) (chain : List Key) :
    (safe_extract data chain = JVal.null ↔
      (pathLookup data chain = none ∨ pathLookup data chain = some JVal.null))
    ∧ fetch_single_row false false d_id none (some data) chain =
        (if isNone (safe_extract data chain) = true
         then (d_id, JVal.null, some "Data section not found")
         else (d_id, safe_extract data chain, none))
    ∧ ((fetch_single_row false false d_id none (some data) chain).2.2 = none ↔
        ¬ safe_extract data chain = JVal.null) := by
  by_cases h : safe_extract data chain = JVal.null
  · refine ⟨safe_extract_null_iff chain data, ?_, ?_⟩ <;> simp [fetch_single_row, h, isNone]
  · have hn : isNone (safe_extract data chain) = false := by
      rw [Bool.eq_false_iff]
      intro hh
      exact h ((isNone_iff _).mp hh)
    refine ⟨safe_extract_null_iff chain data, ?_, ?_⟩ <;> simp [fetch_single_row, h, hn]

/-! ### Claim C8: the record loop pads with null and drops surplus values -/

/-- Proof-side reformulation of the record loop that consumes headers and a
pre-aligned value list in lock step. -/
def buildPT : RecDict → List JVal → List JVal → Option RecDict
  | r, [], _ => some r
  | r, h :: t, [] =>
    match dinsertJ r h JVal.null with
    | none => none
    | some r' => buildPT r' t []
  | r, h :: t, v :: vt =>
    match dinsertJ r h v with
    | none => none
    | some r' => buildPT r' t vt

theorem buildRecordAux_eq_pt :
    ∀ (hs : List JVal) (r : RecDict) (vs : List JVal) (idx : Nat),
      buildRecordAux vs r idx hs =
        buildPT r hs
          ((vs.drop idx).take hs.length ++
            List.replicate (hs.length - (vs.length - idx)) JVal.null) := by
  intro hs
  induction hs with
  | nil => intro r vs idx; simp [buildRecordAux, buildPT]
  | cons h t ih =>
    intro r vs idx
    by_cases hlt : idx < vs.length
    · have hdrop : vs.drop idx = vs[idx] :: vs.drop (idx + 1) :=
        List.drop_eq_getElem_cons hlt
      have hget : vs.getD idx JVal.null = vs[idx] := List.getD_eq_getElem vs JVal.null hlt
      have harith : t.length + 1 - (vs.length - idx) = t.length - (vs.length - (idx + 1)) := by
        omega
      simp only [buildRecordAux, hget, hdrop, List.length_cons, List.take_succ_cons,
        harith, buildPT]
      cases dinsertJ r h vs[idx] with
      | none => rfl
      | some r' => exact ih r' vs (idx + 1)
    · have hge : vs.length ≤ idx := by omega
      have hdrop : vs.drop idx = [] := List.drop_eq_nil_of_le hge
      have hdrop' : vs.drop (idx + 1) = [] := List.drop_eq_nil_of_le (by omega)
      have hget : vs.getD idx JVal.null = JVal.null := List.getD_eq_default vs JVal.null hge
      have h1 : vs.length - idx = 0 := by omega
      have h2 : vs.length - (idx + 1) = 0 := by omega
      simp only [buildRecordAux, hget, hdrop, hdrop', h1, h2, List.take_nil,
        List.nil_append, Nat.sub_zero, List.length_cons, List.replicate_succ, buildPT]
      cases dinsertJ r h JVal.null with
      | none => rfl
      | some r' =>
        have h3 := ih r' vs (idx + 1)
        rw [hdrop', h2] at h3
        simpa using h3

/-- C8: for every merged row, the assignment loop of `merge_and_save` pads and
truncates deterministically — running it on the raw value list is the same as
running it on the value list truncated to the effective header count and
padded with nulls up to it: header positions beyond the last value are set to
null, and values beyond the last effective header never reach the record. -/
theorem merge_pads_and_truncates (r : RecDict) (hs vs : List JVal) :
    buildRecordAux vs r 0 hs =
      buildRecordAux (vs.take hs.length ++ List.replicate (hs.length - vs.length) JVal.null)
        r 0 hs := by
  set pad := vs.take hs.length ++ List.replicate (hs.length - vs.length) JVal.null with hpad
  have hlen : pad.length = hs.length := by
    simp [hpad]
    omega
  rw [buildRecordAux_eq_pt hs r vs 0, buildRecordAux_eq_pt hs r pad 0]
  congr 1
  rw [List.drop_zero, List.drop_zero, List.take_of_length_le (le_of_eq hlen),
    Nat.sub_zero, Nat.sub_zero, hlen, Nat.sub_self, List.replicate_zero, List.append_nil]

/-! ### Claim C3 (corrected): terminal statuses are not protected -/

def finishedJob : JobState :=
  { status := "finished", progress := 5, total := 5,
    start_time := 0, stopSet := false, message := "Complete" }

/-- C3 counterexample: `stop_task` on a job whose status is already
`"finished"` overwrites the status with `"stopping"` — a terminal `JobState`
is mutated by a later `requestStop`. -/
theorem stop_after_finish_mutates_status :
    finishedJob.status = "finished"
    ∧ (dget (stop_task [("t", finishedJob)] "t").1 "t").map JobState.status = some "stopping"
    ∧ ("stopping" : String) ≠ "finished" := by
  refine ⟨rfl, rfl, ?_⟩
  decide

/-- C3 amended: neither mutator guards terminal states — `stop_task` on any
existing task (whatever its status, including `finished`/`stopped`/`error`)
sets the stop event and forces status `"stopping"` and returns `true`, and a
progress-callback invocation on any existing task (including a stopping or
terminal one) forces status `"processing"` and overwrites
progress/total/message. -/
theorem terminal_status_not_protected (tasks : PyDict String JobState) (task_id : String)
    (t : JobState) (completed total : Nat) (h : dget tasks task_id = some t) :
    (stop_task tasks task_id).2 = true
    ∧ dget (stop_task tasks task_id).1 task_id =
        some { t with stopSet := true, status := "stopping" }
    ∧ dget (worker_progress_callback tasks task_id completed total) task_id =
        some { t with
                 progress := completed
                 total := total
                 status := "processing"
                 message := "Processed " ++ toString completed ++ " of "
                   ++ toString total ++ " items..." } := by
  unfold stop_task worker_progress_callback
  rw [h]
  exact ⟨rfl, dget_dinsert_self tasks task_id _, dget_dinsert_self tasks task_id _⟩

theorem terminal_status_not_protected_witness :
    (stop_task [("t", finishedJob)] "t").2 = true
    ∧ dget (stop_task [("t", finishedJob)] "t").1 "t" =
        some { finishedJob with stopSet := true, status := "stopping" }
    ∧ dget (worker_progress_callback [("t", finishedJob)] "t" 1 2) "t" =
        some { finishedJob with
                 progress := 1
                 total := 2
                 status := "processing"
                 message := "Processed " ++ toString 1 ++ " of "
                   ++ toString 2 ++ " items..." } :=
  terminal_status_not_protected [("t", finishedJob)] "t" finishedJob 1 2 rfl

/-! ### Claim C7: fail-fast admission with capacity 2 -/

/-- C7: with the bounded semaphore at capacity 2, a `start_collection_task`
call made while both slots are held fails immediately with the busy error and
registers nothing, while a call made while fewer than two slots are held
consumes a slot, registers the new task as `"initializing"` and returns its
id; the non-blocking acquire is a total function of the counter. -/
theorem admission_fail_fast (held : Nat) (tasks : PyDict String JobState)
    (new_id : String) (now : Nat) (hle : held ≤ taskCapacity) :
    (held = taskCapacity →
      start_collection_task (taskCapacity - held) tasks new_id now =
        (Except.error busyMessage, taskCapacity - held, tasks))
    ∧ (held < taskCapacity →
      start_collection_task (taskCapacity - held) tasks new_id now =
        (Except.ok new_id, taskCapacity - held - 1, dinsert tasks new_id (initialJob now))) := by
  constructor
  · intro h
    subst h
    simp [start_collection_task]
  · intro h
    have hne : taskCapacity - held ≠ 0 := by
      simp only [taskCapacity] at *
      omega
    simp [start_collection_task, hne]

theorem admission_fail_fast_witness :
    start_collection_task (taskCapacity - 2) [] "t" 0 =
      (Except.error busyMessage, taskCapacity - 2, [])
    ∧ start_collection_task (taskCapacity - 1) [] "t" 0 =
      (Except.ok "t", taskCapacity - 1 - 1, dinsert [] "t" (initialJob 0)) :=
  ⟨(admission_fail_fast 2 [] "t" 0 (by decide)).1 rfl,
   (admission_fail_fast 1 [] "t" 0 (by decide)).2 (by decide)⟩

/-! ### Claim C5 (corrected): the last tabular cell wins, not the first -/

theorem scanCells_append (xs ys : List JVal) (acc : List JVal × JVal) :
    scanCells (xs ++ ys) acc =
      match scanCells xs acc with
      | none => none
      | some acc' => scanCells ys acc' := by
  induction xs generalizing acc with
  | nil => simp [scanCells]
  | cons c cs ih =>
    cases c with
    | obj cps =>
      simp only [List.cons_append, scanCells]
      cases dgetD cps "value" JVal.null with
      | obj vps =>
        by_cases hr : dmem vps "rows" = true
        · simp only [hr, if_true]
          cases headerNames (dgetD vps "headerItems" (JVal.arr [])) with
          | none => rfl
          | some hs => exact ih _
        · simp only [Bool.not_eq_true] at hr
          simp only [hr, Bool.false_eq_true, if_false]
          exact ih acc
      | null => exact ih acc
      | b x => exact ih acc
      | i n => exact ih acc
      | s t => exact ih acc
      | arr l => exact ih acc
    | null => rfl
    | b x => rfl
    | i n => rfl
    | s t => rfl
    | arr l => rfl

def tab1 : JVal :=
  JVal.obj [("headerItems", JVal.arr [JVal.obj [("name", JVal.s "H1")]]),
            ("rows", JVal.arr [JVal.s "r1"])]

def tab2 : JVal :=
  JVal.obj [("headerItems", JVal.arr [JVal.obj [("name", JVal.s "H2")]]),
            ("rows", JVal.arr [JVal.s "r2"])]

/-- A cellular-wrapped section whose cell list holds two tabular values. -/
def cellSection : JVal :=
  JVal.obj [("cells", JVal.arr [JVal.obj [("value", tab1)], JVal.obj [("value", tab2)]])]

/-- C5 counterexample: on a cellular-wrapped section with two tabular cells,
normalization adopts the headers and rows of the SECOND (last) cell, not the
first — refuting the claim that the first such cell in cell-list order wins. -/
theorem cellular_first_match_refuted :
    normalizeSection cellSection = some ([JVal.s "H2"], JVal.arr [JVal.s "r2"])
    ∧ normalizeSection cellSection ≠ some ([JVal.s "H1"], JVal.arr [JVal.s "r1"]) := by
  refine ⟨rfl, ?_⟩
  intro h
  have h0 : normalizeSection cellSection = some ([JVal.s "H2"], JVal.arr [JVal.s "r2"]) := rfl
  have h1 := Option.some.inj (h0.symm.trans h)
  simp at h1

/-- C5 amended: for a cellular-wrapped section the scan has no break, so the
LAST cell whose value is tabular wins — appending a tabular cell at the end
of the cell list makes normalization adopt that cell's headers and rows,
overriding whatever the earlier cells produced. -/
theorem cellular_last_tabular_cell_wins (cs : List JVal) (acc0 : List JVal × JVal)
    (cps vps : List (String × JVal)) (hs : List JVal)
    (hpre : scanCells cs ([], JVal.arr []) = some acc0)
    (hcell : dgetD cps "value" JVal.null = JVal.obj vps)
    (hrows : dmem vps "rows" = true)
    (hhdrs : headerNames (dgetD vps "headerItems" (JVal.arr [])) = some hs) :
    normalizeSection (JVal.obj [("cells", JVal.arr (cs ++ [JVal.obj cps]))]) =
      some (hs, dgetD vps "rows" JVal.null) := by
  have hsec : normalizeSection (JVal.obj [("cells", JVal.arr (cs ++ [JVal.obj cps]))]) =
      scanCells (cs ++ [JVal.obj cps]) ([], JVal.arr []) := by
    simp [normalizeSection, dmem, dgetD, pyIter]
  rw [hsec, scanCells_append, hpre]
  simp [scanCells, hcell, hrows, hhdrs]

theorem cellular_last_tabular_cell_wins_witness :
    normalizeSection (JVal.obj [("cells", JVal.arr ([JVal.obj [("value", tab1)]] ++ [JVal.obj [("value", tab2)]]))]) =
      some ([JVal.s "H2"],
        dgetD [("headerItems", JVal.arr [JVal.obj [("name", JVal.s "H2")]]),
               ("rows", JVal.arr [JVal.s "r2"])] "rows" JVal.null) :=
  cellular_last_tabular_cell_wins [JVal.obj [("value", tab1)]]
    ([JVal.s "H1"], JVal.arr [JVal.s "r1"])
    [("value", tab2)]
    [("headerItems", JVal.arr [JVal.obj [("name", JVal.s "H2")]]),
     ("rows", JVal.arr [JVal.s "r2"])]
    [JVal.s "H2"] rfl rfl rfl rfl

/-! ### Claim C4 (corrected): re-normalization keeps rows but resets headers -/

theorem normalizeSection_arr (l : List JVal) :
    normalizeSection (JVal.arr l) = some ([], JVal.arr l) := rfl

theorem normEntries_of_arr (rows : List (Int × JVal))
    (h : ∀ p ∈ rows, ∃ l, p.2 = JVal.arr l) :
    normEntries rows = some (rows.map (fun p => (p.1, (([] : List JVal), p.2)))) := by
  induction rows with
  | nil => rfl
  | cons p rest ih =>
    obtain ⟨k, sv⟩ := p
    obtain ⟨l, hl⟩ := h (k, sv) (by simp)
    simp only at hl
    subst hl
    simp only [normEntries, normalizeSection_arr, List.map_cons]
    rw [ih (fun q hq => h q (by simp [hq]))]

theorem foldl_dinsert_fixed [DecidableEq K] (l : List (K × V)) (d : PyDict K V)
    (h : ∀ p ∈ l, dget d p.1 = some p.2) :
    l.foldl (fun acc p => dinsert acc p.1 p.2) d = d := by
  induction l with
  | nil => rfl
  | cons p rest ih =>
    simp only [List.foldl_cons]
    rw [dinsert_of_dget_eq d p.1 p.2 (h p (by simp))]
    exact ih (fun q hq => h q (by simp [hq]))

theorem dget_foldl_not_mem [DecidableEq K] (l : List (K × V)) (d : PyDict K V) (k : K)
    (h : k ∉ l.map Prod.fst) :
    dget (l.foldl (fun acc p => dinsert acc p.1 p.2) d) k = dget d k := by
  induction l generalizing d with
  | nil => rfl
  | cons p rest ih =>
    simp only [List.map_cons, List.mem_cons, not_or] at h
    simp only [List.foldl_cons]
    rw [ih _ h.2, dget_dinsert_ne _ _ _ _ h.1]

theorem dget_foldl_const [DecidableEq K] (l : List (K × V)) (d : PyDict K V) (k : K) (c : V)
    (hc : ∀ p ∈ l, p.2 = c) (hk : k ∈ l.map Prod.fst) :
    dget (l.foldl (fun acc p => dinsert acc p.1 p.2) d) k = some c := by
  induction l generalizing d with
  | nil => simp at hk
  | cons p rest ih =>
    simp only [List.foldl_cons]
    by_cases hmem : k ∈ rest.map Prod.fst
    · exact ih _ (fun q hq => hc q (by simp [hq])) hmem
    · have hkp : k = p.1 := by
        simp only [List.map_cons, List.mem_cons] at hk
        tauto
      rw [dget_foldl_not_mem rest _ k hmem, hkp, dget_dinsert_self, hc p (by simp)]

def c4Section : JVal :=
  JVal.obj [("headerItems", JVal.arr [JVal.obj [("name", JVal.s "A")]]),
            ("rows", JVal.arr [])]

/-- C4 counterexample: for a collector holding one tabular section with header
"A" and an empty row list, a first `get_values` pass stores headers `["A"]`,
but a second pass maps the already-normalized rows value (a bare list) through
the bare-list branch and resets the stored headers to `[]` — so applying the
normalization step twice does NOT leave `headers_by_id` unchanged. -/
theorem renormalize_changes_headers :
    normState [(1, c4Section)] [] = some ([(1, JVal.arr [])], [(1, [JVal.s "A"])])
    ∧ normState [(1, JVal.arr [])] [(1, [JVal.s "A"])] =
        some ([(1, JVal.arr [])], [(1, ([] : List JVal))])
    ∧ ([(1, [JVal.s "A"])] : PyDict Int (List JVal)) ≠ [(1, ([] : List JVal))] := by
  refine ⟨rfl, rfl, ?_⟩
  intro h
  simp at h

/-- C4 amended: `get_values` is deterministic but not idempotent on the
collector: re-normalizing an already-normalized collector (every stored rows
value is a list, the shape a well-formed first pass leaves behind) preserves
`rows_by_id` entirely, but resets every `headers_by_id` entry for those ids to
the empty list — the `(headers, rows)` pair is preserved only when the first
pass produced no headers. -/
theorem renormalize_preserves_rows_resets_headers
    (rows : PyDict Int JVal) (hdrs : PyDict Int (List JVal))
    (hnd : (dkeys rows).Nodup)
    (harr : ∀ p ∈ rows, ∃ l, p.2 = JVal.arr l) :
    ∃ hdrs2, normState rows hdrs = some (rows, hdrs2)
      ∧ ∀ k ∈ dkeys rows, dget hdrs2 k = some ([] : List JVal) := by
  have hne := normEntries_of_arr rows harr
  have hrowsfix :
      (rows.map (fun p => (p.1, (([] : List JVal), p.2)))).foldl
        (fun d p => dinsert d p.1 p.2.2) rows = rows := by
    rw [List.foldl_map]
    exact foldl_dinsert_fixed rows rows
      (fun p hp => dget_of_mem_of_nodup rows p.1 p.2 hnd hp)
  have hhdrseq :
      (rows.map (fun p => (p.1, (([] : List JVal), p.2)))).foldl
        (fun d p => dinsert d p.1 p.2.1) hdrs =
      (rows.map (fun p => (p.1, ([] : List JVal)))).foldl
        (fun d p => dinsert d p.1 p.2) hdrs := by
    rw [List.foldl_map, List.foldl_map]
  refine ⟨(rows.map (fun p => (p.1, ([] : List JVal)))).foldl
      (fun d p => dinsert d p.1 p.2) hdrs, ?_, ?_⟩
  · simp only [normState, hne, hrowsfix, hhdrseq]
  · intro k hk
    refine dget_foldl_const _ hdrs k ([] : List JVal) (by simp) ?_
    simpa [dkeys, List.map_map, Function.comp] using hk

theorem renormalize_preserves_rows_resets_headers_witness :
    ∃ hdrs2,
      normState [(1, JVal.arr [JVal.i 7])] [(1, [JVal.s "A"])] =
        some ([(1, JVal.arr [JVal.i 7])], hdrs2)
      ∧ ∀ k ∈ dkeys [((1 : Int), JVal.arr [JVal.i 7])], dget hdrs2 k = some ([] : List JVal) :=
  renormalize_preserves_rows_resets_headers [(1, JVal.arr [JVal.i 7])] [(1, [JVal.s "A"])]
    (by simp)
    (by
      intro p hp
      simp only [List.mem_singleton] at hp
      subst hp
      exact ⟨[JVal.i 7], rfl⟩)

/-! ### Claim C6: zero rows yield exactly one null-filled record -/

theorem dget_dinsert_isSome [DecidableEq K] (d : PyDict K V) (k0 k : K) (v : V)
    (h : (dget (dinsert d k0 v) k).isSome = true) :
    k = k0 ∨ (dget d k).isSome = true := by
  rcases (mem_dkeys_dinsert d k0 k v).mp ((dget_isSome_iff_mem_dkeys _ k).mp h) with h1 | h1
  · exact Or.inl h1
  · exact Or.inr ((dget_isSome_iff_mem_dkeys _ k).mpr h1)

theorem buildNullRecord_total :
    ∀ (hs : List JVal), (∀ x ∈ hs, (toHKey x).isSome = true) →
      ∀ r : RecDict, ∃ r', buildNullRecord r hs = some r' := by
  intro hs
  induction hs with
  | nil => intro _ r; exact ⟨r, rfl⟩
  | cons h t ih =>
    intro hh r
    obtain ⟨hk, hhk⟩ := Option.isSome_iff_exists.mp (hh h (by simp))
    obtain ⟨r', hr'⟩ := ih (fun x hx => hh x (by simp [hx])) (dinsert r hk JVal.null)
    exact ⟨r', by simp [buildNullRecord, dinsertJ, hhk, hr']⟩

theorem buildNullRecord_null_write :
    ∀ (hs : List JVal) (r r' : RecDict) (k : HKey),
      buildNullRecord r hs = some r' →
      (dget r k = some JVal.null ∨ ∃ x ∈ hs, toHKey x = some k) →
      dget r' k = some JVal.null := by
  intro hs
  induction hs with
  | nil =>
    intro r r' k hb hpre
    simp only [buildNullRecord] at hb
    cases hb
    rcases hpre with h1 | ⟨x, hx, _⟩
    · exact h1
    · simp at hx
  | cons h t ih =>
    intro r r' k hb hpre
    simp only [buildNullRecord] at hb
    cases hhk : dinsertJ r h JVal.null with
    | none => rw [hhk] at hb; exact absurd hb (by simp)
    | some r1 =>
      rw [hhk] at hb
      simp only [dinsertJ] at hhk
      cases htk : toHKey h with
      | none => rw [htk] at hhk; exact absurd hhk (by simp)
      | some hk0 =>
        rw [htk] at hhk
        have hr1 : r1 = dinsert r hk0 JVal.null := by
          cases hhk; rfl
        subst hr1
        refine ih _ r' k hb ?_
        rcases hpre with h1 | ⟨x, hx, hxk⟩
        · by_cases hkk : k = hk0
          · subst hkk; exact Or.inl (dget_dinsert_self r k JVal.null)
          · exact Or.inl (by rw [dget_dinsert_ne r hk0 k JVal.null hkk]; exact h1)
        · rcases List.mem_cons.mp hx with h2 | h2
          · subst h2
            have : hk0 = k := by
              rw [htk] at hxk
              exact Option.some.inj hxk
            subst this
            exact Or.inl (dget_dinsert_self r hk0 JVal.null)
          · exact Or.inr ⟨x, h2, hxk⟩

theorem buildNullRecord_not_mem :
    ∀ (hs : List JVal) (r r' : RecDict) (k : HKey),
      buildNullRecord r hs = some r' →
      (∀ x ∈ hs, toHKey x ≠ some k) →
      dget r' k = dget r k := by
  intro hs
  induction hs with
  | nil =>
    intro r r' k hb _
    simp only [buildNullRecord] at hb
    cases hb
    rfl
  | cons h t ih =>
    intro r r' k hb hnk
    simp only [buildNullRecord] at hb
    cases hhk : dinsertJ r h JVal.null with
    | none => rw [hhk] at hb; exact absurd hb (by simp)
    | some r1 =>
      rw [hhk] at hb
      simp only [dinsertJ] at hhk
      cases htk : toHKey h with
      | none => rw [htk] at hhk; exact absurd hhk (by simp)
      | some hk0 =>
        rw [htk] at hhk
        have hr1 : r1 = dinsert r hk0 JVal.null := by
          cases hhk; rfl
        subst hr1
        rw [ih _ r' k hb (fun x hx => hnk x (by simp [hx]))]
        have hkk : k ≠ hk0 := by
          intro he
          exact hnk h (by simp) (by rw [htk, he])
        exact dget_dinsert_ne r hk0 k JVal.null hkk

theorem buildNullRecord_keys :
    ∀ (hs : List JVal) (r r' : RecDict) (k : HKey),
      buildNullRecord r hs = some r' →
      (dget r' k).isSome = true →
      (dget r k).isSome = true ∨ ∃ x ∈ hs, toHKey x = some k := by
  intro hs
  induction hs with
  | nil =>
    intro r r' k hb hk
    simp only [buildNullRecord] at hb
    cases hb
    exact Or.inl hk
  | cons h t ih =>
    intro r r' k hb hk
    simp only [buildNullRecord] at hb
    cases hhk : dinsertJ r h JVal.null with
    | none => rw [hhk] at hb; exact absurd hb (by simp)
    | some r1 =>
      rw [hhk] at hb
      simp only [dinsertJ] at hhk
      cases htk : toHKey h with
      | none => rw [htk] at hhk; exact absurd hhk (by simp)
      | some hk0 =>
        rw [htk] at hhk
        have hr1 : r1 = dinsert r hk0 JVal.null := by
          cases hhk; rfl
        subst hr1
        rcases ih _ r' k hb hk with h1 | ⟨x, hx, hxk⟩
        · rcases dget_dinsert_isSome r hk0 k JVal.null h1 with h2 | h2
          · exact Or.inr ⟨h, by simp, by rw [htk, h2]⟩
          · exact Or.inl h2
        · exact Or.inr ⟨x, by simp [hx], hxk⟩

/-- C6: for every declaration whose id is not in the failure set and whose
normalized row list is empty, `merge_and_save` emits exactly one record: the
declaration's metadata with every header observed for that declaration present
and set to null (header keys overwrite colliding metadata keys; all other
metadata entries are untouched, and the record holds no other keys). -/
theorem zero_rows_single_null_record
    (rows : PyDict Int JVal) (hdrs : PyDict Int (List JVal)) (failedIds : List Int)
    (person : PyDict String JVal) (n : Int)
    (hid : dget person "id" = some (JVal.i n))
    (hnf : n ∉ failedIds)
    (hempty : jgetRows rows (JVal.i n) = JVal.arr [])
    (hhash : ∀ x ∈ jgetHeaders hdrs (JVal.i n), (toHKey x).isSome = true) :
    ∃ r, recordsForPerson rows hdrs failedIds person = some [r]
      ∧ (∀ x ∈ jgetHeaders hdrs (JVal.i n), ∀ hk, toHKey x = some hk →
          dget r hk = some JVal.null)
      ∧ (∀ k : HKey, (∀ x ∈ jgetHeaders hdrs (JVal.i n), toHKey x ≠ some k) →
          dget r k = dget (toRec person) k)
      ∧ (∀ k : HKey, (dget r k).isSome = true →
          (dget (toRec person) k).isSome = true
            ∨ ∃ x ∈ jgetHeaders hdrs (JVal.i n), toHKey x = some k) := by
  obtain ⟨r, hr⟩ := buildNullRecord_total _ hhash (toRec person)
  have hjid : jidMem (JVal.i n) failedIds = false := by
    simp [jidMem, hnf]
  refine ⟨r, ?_, ?_, ?_, ?_⟩
  · simp only [recordsForPerson, hid, hjid, Bool.false_eq_true, if_false, hempty]
    simp [pyTruthy, hr]
  · intro x hx hk hhk
    exact buildNullRecord_null_write _ _ _ hk hr (Or.inr ⟨x, hx, hhk⟩)
  · intro k hnk
    exact buildNullRecord_not_mem _ _ _ k hr hnk
  · intro k hk
    exact buildNullRecord_keys _ _ _ k hr hk

theorem zero_rows_single_null_record_witness :
    ∃ r, recordsForPerson [] [((1 : Int), [JVal.s "H"])] []
        [("id", JVal.i 1), ("nm", JVal.s "x")] = some [r]
      ∧ (∀ x ∈ jgetHeaders [((1 : Int), [JVal.s "H"])] (JVal.i 1), ∀ hk, toHKey x = some hk →
          dget r hk = some JVal.null)
      ∧ (∀ k : HKey, (∀ x ∈ jgetHeaders [((1 : Int), [JVal.s "H"])] (JVal.i 1), toHKey x ≠ some k) →
          dget r k = dget (toRec [("id", JVal.i 1), ("nm", JVal.s "x")]) k)
      ∧ (∀ k : HKey, (dget r k).isSome = true →
          (dget (toRec [("id", JVal.i 1), ("nm", JVal.s "x")]) k).isSome = true
            ∨ ∃ x ∈ jgetHeaders [((1 : Int), [JVal.s "H"])] (JVal.i 1), toHKey x = some k) :=
  zero_rows_single_null_record [] [(1, [JVal.s "H"])] [] [("id", JVal.i 1), ("nm", JVal.s "x")] 1
    rfl (by simp) rfl
    (by
      intro x hx
      simp only [jgetHeaders, dgetD] at hx
      simp at hx
      subst hx
      rfl)

/-! ### Claim C2: per id, success and failure are mutually exclusive -/

theorem processOne_cases (total : Nat) (st : RunState) (c : Int × JVal × Option String) :
    ((processOne total st c).rows_by_id = dinsert st.rows_by_id c.1 c.2.1
      ∧ (processOne total st c).failed_items = st.failed_items)
    ∨ ((processOne total st c).rows_by_id = st.rows_by_id
      ∧ ((processOne total st c).failed_items = st.failed_items ++ [(c.1, c.2.2)]
          ∨ (processOne total st c).failed_items = st.failed_items)) := by
  simp only [processOne]
  by_cases hA : isNone c.2.1 = false
  · simp [hA]
  · by_cases hB : c.2.2 ≠ some "Stopped"
    · simp [hA, hB]
    · simp [hA, hB]

theorem run_fold_exclusive (total : Nat) :
    ∀ (outs : List (Int × JVal × Option String)) (st : RunState),
      (outs.map (fun c => c.1)).Nodup →
      (∀ n : Int, ¬(n ∈ dkeys st.rows_by_id ∧ n ∈ st.failed_items.map Prod.fst)) →
      (∀ n : Int, n ∈ outs.map (fun c => c.1) →
        n ∉ dkeys st.rows_by_id ∧ n ∉ st.failed_items.map Prod.fst) →
      ∀ n : Int,
        ¬(n ∈ dkeys (outs.foldl (processOne total) st).rows_by_id
          ∧ n ∈ (outs.foldl (processOne total) st).failed_items.map Prod.fst) := by
  intro outs
  induction outs with
  | nil =>
    intro st _ hdisj _ n
    simpa using hdisj n
  | cons c rest ih =>
    intro st hnd hdisj hfresh n
    simp only [List.map_cons, List.nodup_cons] at hnd
    simp only [List.foldl_cons]
    have hc := hfresh c.1 (by simp)
    rcases processOne_cases total st c with ⟨hrw, hfl⟩ | ⟨hrw, hfl⟩
    · refine ih (processOne total st c) hnd.2 ?_ ?_ n
      · intro m hm
        rw [hrw] at hm
        rw [hfl] at hm
        rcases (mem_dkeys_dinsert _ _ _ _).mp hm.1 with h1 | h1
        · exact hc.2 (h1 ▸ hm.2)
        · exact hdisj m ⟨h1, hm.2⟩
      · intro m hm
        have hmc : m ≠ c.1 := by
          intro he
          subst he
          exact hnd.1 hm
        obtain ⟨h1, h2⟩ := hfresh m (by simp [hm])
        constructor
        · rw [hrw]
          intro hmem
          rcases (mem_dkeys_dinsert _ _ _ _).mp hmem with h3 | h3
          · exact hmc h3
          · exact h1 h3
        · rw [hfl]
          exact h2
    · refine ih (processOne total st c) hnd.2 ?_ ?_ n
      · intro m hm
        rw [hrw] at hm
        rcases hfl with hfl | hfl
        · rw [hfl] at hm
          simp only [List.map_append, List.map_cons, List.map_nil, List.mem_append,
            List.mem_singleton] at hm
          rcases hm.2 with h2 | h2
          · exact hdisj m ⟨hm.1, h2⟩
          · exact hc.1 (h2 ▸ hm.1)
        · rw [hfl] at hm
          exact hdisj m hm
      · intro m hm
        have hmc : m ≠ c.1 := by
          intro he
          subst he
          exact hnd.1 hm
        obtain ⟨h1, h2⟩ := hfresh m (by simp [hm])
        refine ⟨by rw [hrw]; exact h1, ?_⟩
        rcases hfl with hfl | hfl
        · rw [hfl]
          simp only [List.map_append, List.map_cons, List.map_nil, List.mem_append,
            List.mem_singleton]
          rintro (h3 | h3)
          · exact h2 h3
          · exact hmc h3
        · rw [hfl]
          exact h2

/-- C2: on a run over a duplicate-free id list (the stop signal never set), no
id ends up both as a key of `rows_by_id` (a recorded successful Section) and
as the id of a `failed_items` entry — a `FailedItem` and a successful
`Section` are mutually exclusive per identifier. -/
theorem success_failure_exclusive (declarant_ids : List Int) (kc : List Key)
    (outs : List (Int × JVal × Option String))
    (hnd : declarant_ids.Nodup)
    (hperm : List.Perm (outs.map (fun c => c.1)) declarant_ids) :
    ∀ n : Int,
      ¬(n ∈ dkeys (get_row_data_run (some kc) declarant_ids outs).rows_by_id
        ∧ n ∈ (get_row_data_run (some kc) declarant_ids outs).failed_items.map Prod.fst) := by
  intro n
  unfold get_row_data_run
  by_cases hkc : kc.isEmpty
  · simp [hkc, initRunState]
  · by_cases hlen : declarant_ids.length = 0
    · simp [hkc, hlen, initRunState]
    · simp only [hkc, hlen, Bool.false_eq_true, if_false]
      refine run_fold_exclusive declarant_ids.length outs initRunState
        (hperm.nodup_iff.mpr hnd) ?_ ?_ n
      · intro m hm
        simp [initRunState] at hm
      · intro m _
        simp [initRunState]

theorem success_failure_exclusive_witness :
    ¬((1 : Int) ∈ dkeys (get_row_data_run (some [Key.ks "a"]) [1, 2]
        [(1, JVal.arr [], none), (2, JVal.null, some "Timeout")]).rows_by_id
      ∧ (1 : Int) ∈ (get_row_data_run (some [Key.ks "a"]) [1, 2]
        [(1, JVal.arr [], none), (2, JVal.null, some "Timeout")]).failed_items.map Prod.fst) :=
  success_failure_exclusive [1, 2] [Key.ks "a"]
    [(1, JVal.arr [], none), (2, JVal.null, some "Timeout")]
    (by simp) (List.Perm.refl _) 1

/-! ### Claim C1: every listed id is accounted for in the final output -/

theorem recordsForPerson_ne_nil (rows : PyDict Int JVal) (hdrs : PyDict Int (List JVal))
    (failedIds : List Int) (person : PyDict String JVal) (n : Int) (l : List RecDict)
    (hid : dget person "id" = some (JVal.i n)) (hnf : n ∉ failedIds)
    (h : recordsForPerson rows hdrs failedIds person = some l) : l ≠ [] := by
  have hjid : jidMem (JVal.i n) failedIds = false := by
    simp [jidMem, hnf]
  simp only [recordsForPerson, hid, hjid, Bool.false_eq_true, if_false] at h
  by_cases ht : pyTruthy (jgetRows rows (JVal.i n)) = false
  · rw [if_pos ht] at h
    cases hb : buildNullRecord (toRec person) (jgetHeaders hdrs (JVal.i n)) with
    | none => rw [hb] at h; exact absurd h (by simp)
    | some r =>
      rw [hb] at h
      have hl := Option.some.inj h
      rw [← hl]
      simp
  · rw [if_neg ht] at h
    cases hi : pyIter (jgetRows rows (JVal.i n)) with
    | none => rw [hi] at h; exact absurd h (by simp)
    | some rowList =>
      rw [hi] at h
      have hlen := seqMapO_length _ rowList l h
      have hnn := pyTruthy_iter_ne_nil _ rowList (by simpa using ht) hi
      intro hl
      subst hl
      simp at hlen
      exact hnn (List.length_eq_zero.mp hlen.symm)

/-- C1: on a run in which the stop signal is never set, every declaration id
returned by the lister is accounted for in the final output: each listed
declaration either appears in the failure list produced by `get_row_data`
(and is excluded), or contributes at least one record to the dataset built by
`merge_and_save` — no id is silently dropped from both. -/
theorem lister_ids_accounted
    (decls : List (PyDict String JVal)) (declarant_ids : List Int) (kc : List Key)
    (outs : List (Int × JVal × Option String))
    (hids : declarantIds decls = some declarant_ids)
    (hperm : List.Perm (outs.map (fun c => c.1)) declarant_ids)
    (hkc : kc ≠ [])
    (rows1 : PyDict Int JVal) (hdrs1 : PyDict Int (List JVal))
    (final : List RecDict) (failedOut : List (Int × Option String))
    (hnorm : normState (get_row_data_run (some kc) declarant_ids outs).rows_by_id [] =
        some (rows1, hdrs1))
    (hmerge : merge_and_save decls rows1 hdrs1
        (get_row_data_run (some kc) declarant_ids outs).failed_items =
        some (final, failedOut)) :
    ∀ p ∈ decls, ∀ n : Int, dget p "id" = some (JVal.i n) →
      n ∈ failedOut.map Prod.fst ∨
      ∃ l, recordsForPerson rows1 hdrs1 (failedOut.map Prod.fst) p = some l
        ∧ l ≠ [] ∧ ∀ r ∈ l, r ∈ final := by
  intro p hp n hid
  simp only [merge_and_save] at hmerge
  cases hm : seqMapO (recordsForPerson rows1 hdrs1
      ((get_row_data_run (some kc) declarant_ids outs).failed_items.map Prod.fst)) decls with
  | none => rw [hm] at hmerge; exact absurd hmerge (by simp)
  | some parts =>
    rw [hm] at hmerge
    have hpair := Option.some.inj hmerge
    rw [Prod.mk.injEq] at hpair
    obtain ⟨hfin, hfail⟩ := hpair
    subst hfin
    subst hfail
    by_cases hf : n ∈ ((get_row_data_run (some kc) declarant_ids outs).failed_items.map Prod.fst)
    · exact Or.inl hf
    · right
      obtain ⟨l, hl, hlmem⟩ := seqMapO_mem_of_mem _ decls parts p hm hp
      exact ⟨l, hl, recordsForPerson_ne_nil _ _ _ p n l hid hf hl,
        fun r hr => mem_flattenL parts l r hlmem hr⟩

theorem lister_ids_accounted_witness :
    (1 : Int) ∈ ([((1 : Int), some "Timeout")] : List (Int × Option String)).map Prod.fst ∨
    ∃ l, recordsForPerson [] []
        (([((1 : Int), some "Timeout")] : List (Int × Option String)).map Prod.fst)
        [("id", JVal.i 1)] = some l ∧ l ≠ [] ∧ ∀ r ∈ l, r ∈ ([] : List RecDict) :=
  lister_ids_accounted [[("id", JVal.i 1)]] [1] [Key.ks "a"]
    [(1, JVal.null, some "Timeout")] rfl (List.Perm.refl _) (by simp)
    [] [] [] [(1, some "Timeout")] rfl rfl [("id", JVal.i 1)] (by simp) 1 rfl

/-! ### Claim C10: unknown row name is a no-op; merge emits metadata only -/

theorem flattenL_singletons {A : Type u} (f : PyDict String JVal → A) :
    ∀ ds : List (PyDict String JVal),
      flattenL (ds.map (fun p => [f p])) = ds.map f := by
  intro ds
  induction ds with
  | nil => rfl
  | cons p rest ih => simp [flattenL, ih]

theorem recordsForPerson_empty_state (person : PyDict String JVal)
    (hid : (dget person "id").isSome = true) :
    recordsForPerson [] [] [] person = some [toRec person] := by
  obtain ⟨idv, hidv⟩ := Option.isSome_iff_exists.mp hid
  have hjid : jidMem idv [] = false := by
    cases idv <;> simp [jidMem]
  have hrows : jgetRows [] idv = JVal.arr [] := by
    cases idv <;> rfl
  have hhdrs : jgetHeaders [] idv = [] := by
    cases idv <;> rfl
  simp [recordsForPerson, hidv, hjid, hrows, hhdrs, pyTruthy, buildNullRecord]

/-- C10: for a `row_name` with no entry in the path-specification table
(`rows_dict`), `get_row_data` returns at once: the collector state is left
untouched (empty `rows_by_id`, no `failed_items`), no detail request is
processed and the progress callback is never invoked; the subsequent merge
then emits exactly one metadata-only record per listed declaration and an
empty failure list. -/
theorem unknown_row_name_noop
    (rows_dict : String → Option (List Key)) (row_name : String)
    (declarant_ids : List Int) (outs : List (Int × JVal × Option String))
    (decls : List (PyDict String JVal))
    (hnone : rows_dict row_name = none)
    (hid : ∀ p ∈ decls, (dget p "id").isSome = true) :
    get_row_data_run (rows_dict row_name) declarant_ids outs = initRunState
    ∧ (get_row_data_run (rows_dict row_name) declarant_ids outs).rows_by_id = []
    ∧ (get_row_data_run (rows_dict row_name) declarant_ids outs).failed_items = []
    ∧ (get_row_data_run (rows_dict row_name) declarant_ids outs).fetched = []
    ∧ (get_row_data_run (rows_dict row_name) declarant_ids outs).progressLog = []
    ∧ normState [] [] = some ([], [])
    ∧ merge_and_save decls [] [] [] = some (decls.map toRec, []) := by
  have hrun : get_row_data_run (rows_dict row_name) declarant_ids outs = initRunState := by
    rw [hnone]
    rfl
  refine ⟨hrun, by rw [hrun]; rfl, by rw [hrun]; rfl, by rw [hrun]; rfl, by rw [hrun]; rfl,
    rfl, ?_⟩
  have hseq : ∀ ds : List (PyDict String JVal), (∀ p ∈ ds, (dget p "id").isSome = true) →
      seqMapO (recordsForPerson [] [] []) ds = some (ds.map (fun p => [toRec p])) := by
    intro ds hds
    induction ds with
    | nil => rfl
    | cons p rest ih =>
      simp only [seqMapO, recordsForPerson_empty_state p (hds p (by simp)),
        ih (fun q hq => hds q (by simp [hq])), List.map_cons]
  simp only [merge_and_save, List.map_nil, hseq decls hid, flattenL_singletons]

theorem unknown_row_name_noop_witness :
    get_row_data_run ((fun _ => none : String → Option (List Key)) "x") [1]
        [(1, JVal.arr [], none)] = initRunState
    ∧ (get_row_data_run ((fun _ => none : String → Option (List Key)) "x") [1]
        [(1, JVal.arr [], none)]).rows_by_id = []
    ∧ (get_row_data_run ((fun _ => none : String → Option (List Key)) "x") [1]
        [(1, JVal.arr [], none)]).failed_items = []
    ∧ (get_row_data_run ((fun _ => none : String → Option (List Key)) "x") [1]
        [(1, JVal.arr [], none)]).fetched = []
    ∧ (get_row_data_run ((fun _ => none : String → Option (List Key)) "x") [1]
        [(1, JVal.arr [], none)]).progressLog = []
    ∧ normState [] [] = some ([], [])
    ∧ merge_and_save [[("id", JVal.i 1), ("nm", JVal.s "x")]] [] [] [] =
        some ([[("id", JVal.i 1), ("nm", JVal.s "x")]].map toRec, []) :=
  unknown_row_name_noop (fun _ => none) "x" [1] [(1, JVal.arr [], none)]
    [[("id", JVal.i 1), ("nm", JVal.s "x")]] rfl
    (by
      intro p hp
      simp only [List.mem_singleton] at hp
      subst hp
      rfl)
